import Mathlib

/-!
Shallow embedding of `src/demucs/train.py` (the per-epoch trainer
`train_model` and validator `validate_model` of the Demucs speech
separation fork).

Modelling conventions:
* Scalar tensor values (`loss.item()`, `quantizer.model_size()`) are
  rationals.  External collaborators (criterion, quantizer, optimizer,
  `average_metric`) are abstracted into an `Env` record: the loss value
  observed for the batch at enumerate index `idx` of repetition `r` is
  `env.criterionLoss r idx`, the quantizer (when present) yields
  `env.quantizer = some q` with per-batch value `q r idx`, and the
  parameter update of the optimizer is an abstract function on an abstract
  model-parameter type `M`.
* The `DataLoader` is external; its contract (batches of the requested
  size, with one final smaller batch when the dataset size is not a
  multiple of it, `drop_last` being `False`) is captured by
  `loaderSizes`, the list of batch sizes it yields over a dataset of
  `n` items.  Batch content only enters through `Env`.
* Side effects on collaborators (sampler epoch assignment, forward
  passes and their gradient-tracking mode, `backward`, `optimizer.step`,
  `optimizer.zero_grad`) are recorded in an event trace carried by the
  loop state, so frame properties ("validation never steps the
  optimizer") are statable.
* In `validate_model`, `current_loss` is assigned only inside the batch
  loop; the embedding makes it an `Option ℚ` that starts as `none`, so
  the Python `NameError` on an empty loader shows up as a `none` result.
-/

namespace DemucsTrain

/-- Observable effects the two loops perform on their collaborators. -/
inductive Event where
  | setSamplerEpoch (n : Nat)
  | advanceSampler
  | forward (gradTracking : Bool)
  | backward (v : ℚ)
  | optStep
  | zeroGrad
  deriving DecidableEq

/-- External collaborators of the loops, abstracted: per-batch criterion
loss values, the per-batch `model_size()` values of the optional quantizer,
per-batch validation loss values, the effect of the optimizer step on the
model parameters `M`, and the distributed `average_metric` reduction. -/
structure Env (M : Type) where
  criterionLoss : Nat → Nat → ℚ
  quantizer : Option (Nat → Nat → ℚ)
  validLoss : Nat → ℚ
  optStep : Nat → Nat → M → M
  averageMetric : ℚ → ℚ

/-- Batch sizes yielded by `DataLoader(dataset, batch_size=b, ...)` over a
dataset of `n` items: `n / b` full batches of size `b` followed by one
final batch of size `n % b` when `b` does not divide `n`. -/
def loaderSizes (n b : Nat) : List Nat :=
  List.replicate (n / b) b ++ (if n % b = 0 then [] else [n % b])

/-- Number of batches the loader yields (full ones plus the trailing
partial one, if any). -/
def numBatches (n b : Nat) : Nat :=
  n / b + (if n % b = 0 then 0 else 1)

/-- Lines 38-40: `sampler_epoch = epoch * repeat`, then
`if seed is not None: sampler_epoch += seed * 1000`. -/
def samplerEpoch (epoch rep : Nat) (seed : Option Nat) : Nat :=
  match seed with
  | none => epoch * rep
  | some s => epoch * rep + s * 1000

/-- Line 42: `batch_size //= world_size`, executed only when
`world_size > 1` (integer floor division). -/
def effectiveBatchSize (world_size batch_size : Nat) : Nat :=
  if 1 < world_size then batch_size / world_size else batch_size

/-- Lines 71-73: `model_size = 0; if quantizer is not None:
model_size = quantizer.model_size()`. -/
def batchModelSize {M : Type} (env : Env M) (r idx : Nat) : ℚ :=
  match env.quantizer with
  | none => 0
  | some q => q r idx

/-- Line 75: `train_loss = loss + diffq * model_size`, the value passed
to `backward()`. -/
def trainLossOf {M : Type} (env : Env M) (diffq : ℚ) (r idx : Nat) : ℚ :=
  env.criterionLoss r idx + diffq * batchModelSize env r idx

/-- Squared Euclidean norm of a flat list of coordinates. -/
def sqNorm (v : List ℚ) : ℚ :=
  (v.map (fun x => x * x)).sum

/-- Lines 77-80: the accumulator `grad_norm` just before the final
square root, summing `p.grad.data.norm()**2` over the parameters and
skipping parameters whose gradient is `None`.  The gradient of a parameter is
modelled as a flat coordinate list, `none` when absent. -/
def gradNormSq : List (Option (List ℚ)) → ℚ
  | [] => 0
  | none :: ps => gradNormSq ps
  | some g :: ps => sqNorm g + gradNormSq ps

/-- Concatenation of all parameter gradients, an absent gradient
contributing the empty segment. -/
def concatGrads : List (Option (List ℚ)) → List ℚ
  | [] => []
  | none :: ps => concatGrads ps
  | some g :: ps => g ++ concatGrads ps

/-- Mutable state of the training loop: the model parameters, the
accumulators `total_loss` (line 55), `current_loss` (line 46) and
`model_size` (line 47), and the trace of collaborator effects. -/
structure TrainState (M : Type) where
  model : M
  total_loss : ℚ
  current_loss : ℚ
  model_size : ℚ
  trace : List Event

/-- Body of the `for idx, sources in enumerate(tq)` loop (lines 56-94)
for a single yielded batch of size `sz` at enumerate index `idx` of
repetition `r`: skip when `len(sources) < batch_size`, otherwise run the
forward pass, backpropagate `train_loss`, step and zero the optimizer,
and update `total_loss`, `current_loss` and `model_size`. -/
def trainBatch {M : Type} (env : Env M) (diffq : ℚ) (bs r idx sz : Nat)
    (s : TrainState M) : TrainState M :=
  if sz < bs then s
  else
    let loss := env.criterionLoss r idx
    let ms := batchModelSize env r idx
    let train_loss := trainLossOf env diffq r idx
    let total := s.total_loss + loss
    { model := env.optStep r idx s.model
      total_loss := total
      current_loss := total / (1 + (idx : ℚ))
      model_size := ms
      trace := s.trace ++
        [Event.forward true, Event.backward train_loss, Event.optStep,
         Event.zeroGrad] }

/-- The enumerate loop over the batches yielded in one repetition,
threading the enumerate index `idx` (incremented for skipped batches
too, as `enumerate` does). -/
def trainLoop {M : Type} (env : Env M) (diffq : ℚ) (bs r : Nat) :
    List Nat → Nat → TrainState M → TrainState M
  | [], _, s => s
  | sz :: rest, idx, s =>
      trainLoop env diffq bs r rest (idx + 1) (trainBatch env diffq bs r idx sz s)

/-- One repetition (lines 49-94): `total_loss = 0` then the batch loop
from enumerate index 0. -/
def trainRepetition {M : Type} (env : Env M) (diffq : ℚ) (bs : Nat)
    (batches : List Nat) (r : Nat) (s : TrainState M) : TrainState M :=
  trainLoop env diffq bs r batches 0 { s with total_loss := 0 }

/-- The `for repetition in range(repeat)` loop (lines 48-97), advancing
the epoch counter of the distributed sampler after each repetition when
`world_size > 1`. -/
def trainRepeats {M : Type} (env : Env M) (diffq : ℚ) (bs : Nat)
    (batches : List Nat) (world_size rep : Nat) (s : TrainState M) :
    TrainState M :=
  (List.range rep).foldl
    (fun s r =>
      let s1 := trainRepetition env diffq bs batches r s
      if 1 < world_size then
        { s1 with trace := s1.trace ++ [Event.advanceSampler] }
      else s1)
    s

/-- State at entry of the repetition loop: `current_loss = 0`,
`model_size = 0` (lines 46-47); when `world_size > 1` the distributed
sampler has had its epoch set (line 41), recorded as the first trace
event. -/
def initTrainState {M : Type} (epoch rep : Nat) (seed : Option Nat)
    (world_size : Nat) (m0 : M) : TrainState M :=
  { model := m0
    total_loss := 0
    current_loss := 0
    model_size := 0
    trace :=
      if 1 < world_size then [Event.setSamplerEpoch (samplerEpoch epoch rep seed)]
      else [] }

/-- Run of `train_model` up to (excluding) the final `average_metric`
reduction: build the loader over a dataset of `n` items with the
effective batch size and run all repetitions. -/
def trainRunState {M : Type} (env : Env M) (epoch n : Nat) (diffq : ℚ)
    (rep : Nat) (seed : Option Nat) (world_size batch_size : Nat) (m0 : M) :
    TrainState M :=
  let bs := effectiveBatchSize world_size batch_size
  trainRepeats env diffq bs (loaderSizes n bs) world_size rep
    (initTrainState epoch rep seed world_size m0)

/-- Embedding of `train_model` (lines 21-101): returns `(current_loss, model_size)`,
with `current_loss` averaged across workers when `world_size > 1`
(lines 99-101). -/
def train_model {M : Type} (env : Env M) (epoch n : Nat) (diffq : ℚ)
    (rep : Nat) (seed : Option Nat) (world_size batch_size : Nat) (m0 : M) :
    ℚ × ℚ :=
  let s := trainRunState env epoch n diffq rep seed world_size batch_size m0
  (if 1 < world_size then env.averageMetric s.current_loss else s.current_loss,
   s.model_size)

/-- Mutable state of the validation loop.  `current_loss` is `none`
until the first batch assigns it (it is a fresh local of
`validate_model`, bound only inside the loop body). -/
structure ValidState (M : Type) where
  model : M
  total_loss : ℚ
  current_loss : Option ℚ
  trace : List Event

/-- Body of the validation batch loop (lines 126-146): forward pass
under `th.no_grad()`, then accumulate `total_loss` and recompute
`current_loss`.  No optimizer interaction, no parameter update. -/
def validBatch {M : Type} (env : Env M) (idx : Nat) (s : ValidState M) :
    ValidState M :=
  let loss := env.validLoss idx
  let total := s.total_loss + loss
  { model := s.model
    total_loss := total
    current_loss := some (total / (1 + (idx : ℚ)))
    trace := s.trace ++ [Event.forward false] }

/-- The enumerate loop of `validate_model`: every yielded batch is
processed, whatever its size. -/
def validLoop {M : Type} (env : Env M) :
    List Nat → Nat → ValidState M → ValidState M
  | [], _, s => s
  | _sz :: rest, idx, s => validLoop env rest (idx + 1) (validBatch env idx s)

/-- State at entry of the validation loop: `total_loss = 0` (line 125),
`current_loss` not yet bound. -/
def initValidState {M : Type} (m0 : M) : ValidState M :=
  { model := m0, total_loss := 0, current_loss := none, trace := [] }

/-- The full validation pass of `validate_model` over a dataset of `n`
items with batch size `b` (non-distributed, non-shuffled loader). -/
def validRunState {M : Type} (env : Env M) (n b : Nat) (m0 : M) :
    ValidState M :=
  validLoop env (loaderSizes n b) 0 (initValidState m0)

/-- Embedding of `validate_model` (lines 104-148): returns `current_loss`, which is
`none` when the loop body never ran (the Python `NameError`). -/
def validate_model {M : Type} (env : Env M) (n b : Nat) (m0 : M) :
    Option ℚ :=
  (validRunState env n b m0).current_loss

/-- Sum of the training criterion losses of repetition `r` for the `k`
consecutive batches starting at enumerate index `idx`. -/
def trainLossSum {M : Type} (env : Env M) (r : Nat) : Nat → Nat → ℚ
  | _, 0 => 0
  | idx, k + 1 => env.criterionLoss r idx + trainLossSum env r (idx + 1) k

/-- Sum of the validation losses for the `k` consecutive batches
starting at enumerate index `idx`. -/
def validLossSum {M : Type} (env : Env M) : Nat → Nat → ℚ
  | _, 0 => 0
  | idx, k + 1 => env.validLoss idx + validLossSum env (idx + 1) k

/-- Concrete environment used to instantiate theorems with hypotheses on
a model type `Unit`. -/
def testEnv : Env Unit where
  criterionLoss := fun r idx => (r + 1) * (idx + 2)
  quantizer := some (fun r idx => (r + idx : ℚ) / 2)
  validLoss := fun idx => (idx + 1 : ℚ) / 3
  optStep := fun _ _ m => m
  averageMetric := fun x => x / 2

/-- Concrete quantizer-free environment. -/
def testEnvNoQ : Env Unit :=
  { testEnv with quantizer := none }

/-! ### Basic lemmas about the loops -/

theorem trainBatch_of_lt {M : Type} (env : Env M) (diffq : ℚ) (bs r idx sz : Nat)
    (s : TrainState M) (h : sz < bs) :
    trainBatch env diffq bs r idx sz s = s := by
  simp [trainBatch, h]

theorem trainLoop_skip_all {M : Type} (env : Env M) (diffq : ℚ) (bs r : Nat) :
    ∀ (l : List Nat) (idx : Nat) (s : TrainState M),
      (∀ x ∈ l, x < bs) → trainLoop env diffq bs r l idx s = s := by
  intro l
  induction l with
  | nil => intro idx s _; rfl
  | cons sz rest ih =>
      intro idx s h
      have hsz : sz < bs := h sz (List.mem_cons_self _ _)
      rw [trainLoop, trainBatch_of_lt env diffq bs r idx sz s hsz]
      exact ih (idx + 1) s (fun x hx => h x (List.mem_cons_of_mem _ hx))

theorem trainLoop_append {M : Type} (env : Env M) (diffq : ℚ) (bs r : Nat) :
    ∀ (l1 l2 : List Nat) (idx : Nat) (s : TrainState M),
      trainLoop env diffq bs r (l1 ++ l2) idx s
        = trainLoop env diffq bs r l2 (idx + l1.length)
            (trainLoop env diffq bs r l1 idx s) := by
  intro l1
  induction l1 with
  | nil => intro l2 idx s; simp [trainLoop]
  | cons sz rest ih =>
      intro l2 idx s
      rw [List.cons_append, trainLoop, trainLoop, ih]
      congr 1
      simp [Nat.add_comm, Nat.add_assoc, Nat.add_left_comm]

theorem loaderSizes_length (n b : Nat) :
    (loaderSizes n b).length = numBatches n b := by
  unfold loaderSizes numBatches
  by_cases h : n % b = 0 <;> simp [h]

theorem loaderSizes_zero (b : Nat) : loaderSizes 0 b = [] := by
  unfold loaderSizes
  rcases Nat.eq_zero_or_pos b with hb | hb
  · subst hb; simp
  · simp [Nat.zero_div, Nat.zero_mod]

theorem loaderSizes_of_lt (n b : Nat) (h : n < b) :
    loaderSizes n b = if n = 0 then [] else [n] := by
  unfold loaderSizes
  have hdiv : n / b = 0 := Nat.div_eq_of_lt h
  have hmod : n % b = n := Nat.mod_eq_of_lt h
  by_cases hn : n = 0 <;> simp [hdiv, hmod, hn]

theorem trainLossSum_zero {M : Type} (env : Env M) (r idx : Nat) :
    trainLossSum env r idx 0 = 0 := rfl

theorem trainLossSum_succ {M : Type} (env : Env M) (r idx k : Nat) :
    trainLossSum env r idx (k + 1)
      = env.criterionLoss r idx + trainLossSum env r (idx + 1) k := rfl

theorem validLossSum_zero {M : Type} (env : Env M) (idx : Nat) :
    validLossSum env idx 0 = 0 := rfl

theorem validLossSum_succ {M : Type} (env : Env M) (idx k : Nat) :
    validLossSum env idx (k + 1)
      = env.validLoss idx + validLossSum env (idx + 1) k := rfl

theorem trainBatch_of_ge {M : Type} (env : Env M) (diffq : ℚ) (bs r idx sz : Nat)
    (s : TrainState M) (h : ¬ sz < bs) :
    trainBatch env diffq bs r idx sz s =
      { model := env.optStep r idx s.model
        total_loss := s.total_loss + env.criterionLoss r idx
        current_loss := (s.total_loss + env.criterionLoss r idx) / (1 + (idx : ℚ))
        model_size := batchModelSize env r idx
        trace := s.trace ++
          [Event.forward true, Event.backward (trainLossOf env diffq r idx),
           Event.optStep, Event.zeroGrad] } := by
  simp [trainBatch, h]

/-- Invariant of the batch loop over a run of `j` full batches: the loss
accumulator gains the sum of their criterion losses, and (when `j > 0`)
the cumulative mean becomes that accumulated total divided by the
1-based enumerate index of the last batch. -/
theorem trainLoop_replicate {M : Type} (env : Env M) (diffq : ℚ) (b r : Nat) :
    ∀ (j idx : Nat) (s : TrainState M),
      (trainLoop env diffq b r (List.replicate j b) idx s).total_loss
          = s.total_loss + trainLossSum env r idx j
        ∧ (0 < j →
            (trainLoop env diffq b r (List.replicate j b) idx s).current_loss
              = (s.total_loss + trainLossSum env r idx j)
                  / ((idx : ℚ) + (j : ℚ))) := by
  intro j
  induction j with
  | zero =>
      intro idx s
      exact ⟨by simp [trainLossSum_zero, trainLoop], by intro h; exact absurd h (by simp)⟩
  | succ j ih =>
      intro idx s
      have hb : ¬ b < b := lt_irrefl b
      rw [List.replicate_succ]
      simp only [trainLoop]
      rw [trainBatch_of_ge env diffq b r idx b s hb]
      obtain ⟨ihT, ihC⟩ := ih (idx + 1)
        { model := env.optStep r idx s.model
          total_loss := s.total_loss + env.criterionLoss r idx
          current_loss := (s.total_loss + env.criterionLoss r idx) / (1 + (idx : ℚ))
          model_size := batchModelSize env r idx
          trace := s.trace ++
            [Event.forward true, Event.backward (trainLossOf env diffq r idx),
             Event.optStep, Event.zeroGrad] }
      constructor
      · rw [ihT, trainLossSum_succ]
        ring
      · intro _
        rcases Nat.eq_zero_or_pos j with hj | hj
        · subst hj
          simp only [List.replicate_zero, trainLoop]
          rw [trainLossSum_succ, trainLossSum_zero]
          congr 1
          · ring
          · push_cast
            ring
        · rw [ihC hj, trainLossSum_succ]
          congr 1
          · ring
          · push_cast
            ring

theorem div_pos_of_loader (n b : Nat) (h : 0 < n / b) : 0 < b := by
  rcases Nat.eq_zero_or_pos b with hb | hb
  · subst hb; simp at h
  · exact hb

/-- One repetition over the batches of the loader: when there is at least one
full batch, the cumulative mean at the end of the repetition is the sum
of the losses of the full batches divided by the number of full batches; the
trailing partial batch (if any) changes nothing. -/
theorem trainRepetition_loader {M : Type} (env : Env M) (diffq : ℚ)
    (n b r : Nat) (s : TrainState M) (hk : 0 < n / b) :
    (trainRepetition env diffq b (loaderSizes n b) r s).current_loss
      = trainLossSum env r 0 (n / b) / ((n / b : Nat) : ℚ) := by
  have hb : 0 < b := div_pos_of_loader n b hk
  unfold trainRepetition loaderSizes
  rw [trainLoop_append]
  have htail :
      ∀ x ∈ (if n % b = 0 then ([] : List Nat) else [n % b]), x < b := by
    by_cases h : n % b = 0 <;> simp [h]
    exact Nat.mod_lt _ hb
  rw [trainLoop_skip_all env diffq b r _ _ _ htail]
  have := (trainLoop_replicate env diffq b r (n / b) 0
    { s with total_loss := 0 }).2 hk
  rw [this]
  norm_num

/-- Unfolding of the repetition loop at a successor repeat count: the
last repetition (index `rep`) runs on the state left by the first `rep`
repetitions, followed by the sampler advance when distributed. -/
theorem trainRepeats_succ {M : Type} (env : Env M) (diffq : ℚ) (bs : Nat)
    (batches : List Nat) (world_size rep : Nat) (s : TrainState M) :
    trainRepeats env diffq bs batches world_size (rep + 1) s
      = (if 1 < world_size then
          { trainRepetition env diffq bs batches rep
              (trainRepeats env diffq bs batches world_size rep s) with
            trace :=
              (trainRepetition env diffq bs batches rep
                (trainRepeats env diffq bs batches world_size rep s)).trace
                ++ [Event.advanceSampler] }
        else
          trainRepetition env diffq bs batches rep
            (trainRepeats env diffq bs batches world_size rep s)) := by
  unfold trainRepeats
  rw [List.range_succ, List.foldl_append]
  rfl

/-- With a single worker, a repetition whose batches are all undersized
leaves `current_loss` and `model_size` untouched, for any repeat count. -/
theorem trainRepeats_skipped {M : Type} (env : Env M) (diffq : ℚ) (bs : Nat)
    (batches : List Nat) (h : ∀ x ∈ batches, x < bs) :
    ∀ (rep : Nat) (s : TrainState M),
      (trainRepeats env diffq bs batches 1 rep s).current_loss = s.current_loss
        ∧ (trainRepeats env diffq bs batches 1 rep s).model_size = s.model_size := by
  intro rep
  induction rep with
  | zero => intro s; exact ⟨rfl, rfl⟩
  | succ rep ih =>
      intro s
      rw [trainRepeats_succ]
      have hrep : trainRepetition env diffq bs batches rep
          (trainRepeats env diffq bs batches 1 rep s)
          = { trainRepeats env diffq bs batches 1 rep s with total_loss := 0 } := by
        unfold trainRepetition
        exact trainLoop_skip_all env diffq bs rep batches 0 _ h
      rw [if_neg (lt_irrefl 1), hrep]
      exact ih s

/-- With a single worker, after `rep + 1` repetitions the cumulative
mean is the one computed by the last repetition alone (index `rep`),
whatever state the earlier repetitions left. -/
theorem trainRepeats_last {M : Type} (env : Env M) (diffq : ℚ)
    (n b rep : Nat) (s : TrainState M) (hk : 0 < n / b) :
    (trainRepeats env diffq b (loaderSizes n b) 1 (rep + 1) s).current_loss
      = trainLossSum env rep 0 (n / b) / ((n / b : Nat) : ℚ) := by
  rw [trainRepeats_succ, if_neg (lt_irrefl 1)]
  exact trainRepetition_loader env diffq n b rep _ hk

/-- When no quantizer is supplied, the batch loop keeps the
`model_size` accumulator at 0. -/
theorem trainLoop_modelSize_none {M : Type} (env : Env M) (diffq : ℚ)
    (bs r : Nat) (hq : env.quantizer = none) :
    ∀ (l : List Nat) (idx : Nat) (s : TrainState M),
      s.model_size = 0 → (trainLoop env diffq bs r l idx s).model_size = 0 := by
  intro l
  induction l with
  | nil => intro idx s hs; exact hs
  | cons sz rest ih =>
      intro idx s hs
      simp only [trainLoop]
      apply ih
      by_cases hlt : sz < bs
      · rw [trainBatch_of_lt env diffq bs r idx sz s hlt]; exact hs
      · rw [trainBatch_of_ge env diffq bs r idx sz s hlt]
        simp [batchModelSize, hq]

/-- When no quantizer is supplied, the whole repetition loop keeps the
`model_size` accumulator at 0. -/
theorem trainRepeats_modelSize_none {M : Type} (env : Env M) (diffq : ℚ)
    (bs : Nat) (batches : List Nat) (world_size : Nat)
    (hq : env.quantizer = none) :
    ∀ (rep : Nat) (s : TrainState M),
      s.model_size = 0
        → (trainRepeats env diffq bs batches world_size rep s).model_size = 0 := by
  intro rep
  induction rep with
  | zero => intro s hs; exact hs
  | succ rep ih =>
      intro s hs
      rw [trainRepeats_succ]
      have hmid :
          (trainRepetition env diffq bs batches rep
            (trainRepeats env diffq bs batches world_size rep s)).model_size = 0 := by
        unfold trainRepetition
        exact trainLoop_modelSize_none env diffq bs rep hq batches 0 _ (ih s hs)
      by_cases hw : 1 < world_size
      · rw [if_pos hw]; exact hmid
      · rw [if_neg hw]; exact hmid

/-- The batch loop only appends to the trace. -/
theorem trainLoop_trace {M : Type} (env : Env M) (diffq : ℚ) (bs r : Nat) :
    ∀ (l : List Nat) (idx : Nat) (s : TrainState M),
      ∃ t, (trainLoop env diffq bs r l idx s).trace = s.trace ++ t := by
  intro l
  induction l with
  | nil => intro idx s; exact ⟨[], by simp [trainLoop]⟩
  | cons sz rest ih =>
      intro idx s
      simp only [trainLoop]
      by_cases hlt : sz < bs
      · rw [trainBatch_of_lt env diffq bs r idx sz s hlt]
        exact ih (idx + 1) s
      · rw [trainBatch_of_ge env diffq bs r idx sz s hlt]
        obtain ⟨t, ht⟩ := ih (idx + 1)
          { model := env.optStep r idx s.model
            total_loss := s.total_loss + env.criterionLoss r idx
            current_loss := (s.total_loss + env.criterionLoss r idx) / (1 + (idx : ℚ))
            model_size := batchModelSize env r idx
            trace := s.trace ++
              [Event.forward true, Event.backward (trainLossOf env diffq r idx),
               Event.optStep, Event.zeroGrad] }
        refine ⟨[Event.forward true, Event.backward (trainLossOf env diffq r idx),
          Event.optStep, Event.zeroGrad] ++ t, ?_⟩
        rw [ht]
        simp

/-- The repetition loop only appends to the trace. -/
theorem trainRepeats_trace {M : Type} (env : Env M) (diffq : ℚ) (bs : Nat)
    (batches : List Nat) (world_size : Nat) :
    ∀ (rep : Nat) (s : TrainState M),
      ∃ t, (trainRepeats env diffq bs batches world_size rep s).trace
            = s.trace ++ t := by
  intro rep
  induction rep with
  | zero => intro s; exact ⟨[], by simp [trainRepeats]⟩
  | succ rep ih =>
      intro s
      rw [trainRepeats_succ]
      obtain ⟨t1, ht1⟩ := ih s
      obtain ⟨t2, ht2⟩ := trainLoop_trace env diffq bs rep batches 0
        { trainRepeats env diffq bs batches world_size rep s with total_loss := 0 }
      have hmid :
          (trainRepetition env diffq bs batches rep
            (trainRepeats env diffq bs batches world_size rep s)).trace
            = s.trace ++ (t1 ++ t2) := by
        unfold trainRepetition
        rw [ht2]
        simp only []
        rw [ht1, List.append_assoc]
      by_cases hw : 1 < world_size
      · rw [if_pos hw]
        exact ⟨t1 ++ t2 ++ [Event.advanceSampler], by simp [hmid]⟩
      · rw [if_neg hw]
        exact ⟨t1 ++ t2, hmid⟩

/-- Full characterisation of the validation batch loop: every yielded
batch adds its loss to the accumulator; the final cumulative mean
divides by the total number of yielded batches; the model parameters
are untouched; and the only effects are forward passes with gradient
tracking disabled, one per batch. -/
theorem validLoop_spec {M : Type} (env : Env M) :
    ∀ (l : List Nat) (idx : Nat) (s : ValidState M),
      (validLoop env l idx s).total_loss
          = s.total_loss + validLossSum env idx l.length
        ∧ (validLoop env l idx s).model = s.model
        ∧ (validLoop env l idx s).trace
            = s.trace ++ List.replicate l.length (Event.forward false)
        ∧ (l = [] → (validLoop env l idx s).current_loss = s.current_loss)
        ∧ (l ≠ [] → (validLoop env l idx s).current_loss
            = some ((s.total_loss + validLossSum env idx l.length)
                / ((idx : ℚ) + (l.length : ℚ)))) := by
  intro l
  induction l with
  | nil =>
      intro idx s
      refine ⟨by simp [validLossSum_zero, validLoop], rfl, by simp [validLoop], fun _ => rfl, ?_⟩
      intro h
      exact absurd rfl h
  | cons sz rest ih =>
      intro idx s
      simp only [validLoop, validBatch]
      obtain ⟨ihT, ihM, ihTr, ihCnil, ihC⟩ := ih (idx + 1)
        { model := s.model
          total_loss := s.total_loss + env.validLoss idx
          current_loss := some ((s.total_loss + env.validLoss idx) / (1 + (idx : ℚ)))
          trace := s.trace ++ [Event.forward false] }
      refine ⟨?_, ihM, ?_, (fun h => absurd h (List.cons_ne_nil _ _)), ?_⟩
      · rw [ihT, List.length_cons, validLossSum_succ]
        ring
      · rw [ihTr, List.length_cons, List.append_assoc, List.replicate_succ]
        rfl
      · intro _
        rcases eq_or_ne rest [] with hrest | hrest
        · subst hrest
          simp only [List.length_nil, validLoop, List.length_cons]
          rw [validLossSum_succ, validLossSum_zero]
          congr 2
          · ring
          · push_cast
            ring
        · rw [ihC hrest, List.length_cons, validLossSum_succ]
          congr 2
          · ring
          · push_cast
            ring

theorem effectiveBatchSize_one (b : Nat) : effectiveBatchSize 1 b = b := by
  simp [effectiveBatchSize]

theorem numBatches_pos (n b : Nat) (hn : 0 < n) : 0 < numBatches n b := by
  unfold numBatches
  by_cases h : n % b = 0
  · rcases Nat.eq_zero_or_pos b with hb | hb
    · subst hb
      rw [Nat.mod_zero] at h
      exact absurd h (Nat.pos_iff_ne_zero.mp hn)
    · have hbn : b ≤ n := Nat.le_of_dvd hn (Nat.dvd_of_mod_eq_zero h)
      simpa [h] using Nat.div_pos hbn hb
  · simp [h]

theorem sqNorm_append (a b : List ℚ) : sqNorm (a ++ b) = sqNorm a + sqNorm b := by
  simp [sqNorm]

/-! ### Claims -/

/-- C1: during training, every batch whose size is less than the batch
size given to the loader is skipped — the loop steps to the next batch
with all accumulators unchanged — and at the end of a repetition over
the batches yielded by the loader the reported cumulative mean equals the sum of the
losses of the fully-sized batches divided by their number `n / b`
(single worker, one repetition). -/
theorem c1_undersized_batches_skipped {M : Type} (env : Env M) (diffq : ℚ)
    (epoch n b : Nat) (seed : Option Nat) (m0 : M) (hk : 0 < n / b) :
    (∀ (r idx sz : Nat) (rest : List Nat) (s : TrainState M), sz < b →
        trainLoop env diffq b r (sz :: rest) idx s
          = trainLoop env diffq b r rest (idx + 1) s)
      ∧ (train_model env epoch n diffq 1 seed 1 b m0).1
          = trainLossSum env 0 0 (n / b) / ((n / b : Nat) : ℚ) := by
  constructor
  · intro r idx sz rest s hsz
    simp only [trainLoop]
    rw [trainBatch_of_lt env diffq b r idx sz s hsz]
  · have h := trainRepeats_last env diffq n b 0 (initTrainState epoch 1 seed 1 m0) hk
    rw [Nat.zero_add] at h
    simp only [train_model, trainRunState, effectiveBatchSize_one,
      if_neg (lt_irrefl 1)]
    exact h

theorem c1_undersized_batches_skipped_witness :
    0 < 5 / 2
      ∧ (train_model testEnv 0 5 1 1 none 1 2 ()).1
          = trainLossSum testEnv 0 0 (5 / 2) / ((5 / 2 : Nat) : ℚ) :=
  ⟨by decide,
   (c1_undersized_batches_skipped testEnv 1 0 5 2 none () (by decide)).2⟩

/-- C2: the cumulative mean after `j` processed batches equals the sum
of the per-batch losses so far divided by `j`, both in a training
repetition (started with `total_loss = 0`) and in a validation call;
and since the trainer resets `total_loss` at the start of each
repetition, the loss it returns is the cumulative mean of the final
repetition (index `R` when `repeat = R + 1`) alone. -/
theorem c2_cumulative_mean_resets {M : Type} (env : Env M) (diffq : ℚ)
    (epoch n b r j R : Nat) (seed : Option Nat) (m0 : M) (l : List Nat)
    (s : TrainState M) (hs : s.total_loss = 0) (hj : 0 < j)
    (hl : l.length = j) (hk : 0 < n / b) :
    (trainLoop env diffq b r (List.replicate j b) 0 s).current_loss
        = trainLossSum env r 0 j / (j : ℚ)
      ∧ (validLoop env l 0 (initValidState m0)).current_loss
        = some (validLossSum env 0 j / (j : ℚ))
      ∧ (train_model env epoch n diffq (R + 1) seed 1 b m0).1
        = trainLossSum env R 0 (n / b) / ((n / b : Nat) : ℚ) := by
  refine ⟨?_, ?_, ?_⟩
  · have h := (trainLoop_replicate env diffq b r j 0 s).2 hj
    rw [h, hs]
    norm_num
  · have hne : l ≠ [] := by
      intro hnil
      rw [hnil] at hl
      simp at hl
      omega
    have h := (validLoop_spec env l 0 (initValidState m0)).2.2.2.2 hne
    rw [h, hl]
    simp [initValidState]
  · have h := trainRepeats_last env diffq n b R (initTrainState epoch (R + 1) seed 1 m0) hk
    simp only [train_model, trainRunState, effectiveBatchSize_one,
      if_neg (lt_irrefl 1)]
    exact h

theorem c2_cumulative_mean_resets_witness :
    ((initTrainState 0 3 none 1 () : TrainState Unit).total_loss = 0 ∧ 0 < 2
        ∧ ([4, 4] : List Nat).length = 2 ∧ 0 < 9 / 4)
      ∧ ((trainLoop testEnv 1 4 1 (List.replicate 2 4) 0
            (initTrainState 0 3 none 1 ())).current_loss
          = trainLossSum testEnv 1 0 2 / (2 : ℚ)
        ∧ (validLoop testEnv [4, 4] 0 (initValidState ())).current_loss
          = some (validLossSum testEnv 0 2 / (2 : ℚ))
        ∧ (train_model testEnv 0 9 1 (2 + 1) none 1 4 ()).1
          = trainLossSum testEnv 2 0 (9 / 4) / ((9 / 4 : Nat) : ℚ)) :=
  ⟨⟨by decide, by decide, by decide, by decide⟩,
   c2_cumulative_mean_resets testEnv 1 0 9 4 1 2 2 none () [4, 4]
     (initTrainState 0 3 none 1 ()) (by decide) (by decide) (by decide) (by decide)⟩

/-- C3: for an accepted training batch the value passed to `backward()`
is `criterion_loss + diffq * model_size` when a quantizer is supplied
and plain `criterion_loss` when it is not (`model_size` then being 0),
and with no quantizer the `model_size` returned by `train_model` is 0. -/
theorem c3_backprop_loss {M : Type} :
    (∀ (env : Env M) (q : Nat → Nat → ℚ) (diffq : ℚ) (r idx : Nat),
        env.quantizer = some q →
          trainLossOf env diffq r idx = env.criterionLoss r idx + diffq * q r idx)
      ∧ (∀ (env : Env M) (diffq : ℚ) (r idx : Nat),
          env.quantizer = none →
            trainLossOf env diffq r idx = env.criterionLoss r idx
              ∧ batchModelSize env r idx = 0)
      ∧ (∀ (env : Env M) (diffq : ℚ) (bs r idx sz : Nat) (s : TrainState M),
          ¬ sz < bs →
            (trainBatch env diffq bs r idx sz s).trace
              = s.trace ++ [Event.forward true,
                  Event.backward (trainLossOf env diffq r idx),
                  Event.optStep, Event.zeroGrad])
      ∧ (∀ (env : Env M) (epoch n : Nat) (diffq : ℚ) (rep : Nat)
          (seed : Option Nat) (ws bs : Nat) (m0 : M),
          env.quantizer = none
            → (train_model env epoch n diffq rep seed ws bs m0).2 = 0) := by
  refine ⟨?_, ?_, ?_, ?_⟩
  · intro env q diffq r idx hq
    simp [trainLossOf, batchModelSize, hq]
  · intro env diffq r idx hq
    constructor
    · simp [trainLossOf, batchModelSize, hq]
    · simp [batchModelSize, hq]
  · intro env diffq bs r idx sz s hge
    rw [trainBatch_of_ge env diffq bs r idx sz s hge]
  · intro env epoch n diffq rep seed ws bs m0 hq
    simp only [train_model, trainRunState]
    exact trainRepeats_modelSize_none env diffq _ _ ws hq rep _ rfl

theorem c3_backprop_loss_witness :
    (testEnv.quantizer = some (fun (r idx : Nat) => (r + idx : ℚ) / 2)
        ∧ testEnvNoQ.quantizer = none ∧ ¬ (4 : Nat) < 4)
      ∧ trainLossOf testEnv 3 1 2
          = testEnv.criterionLoss 1 2 + 3 * ((((1 : ℕ) : ℚ) + ((2 : ℕ) : ℚ)) / 2)
      ∧ trainLossOf testEnvNoQ 3 1 2 = testEnvNoQ.criterionLoss 1 2
      ∧ (trainBatch testEnvNoQ 3 4 1 2 4 (initTrainState 0 1 none 1 ())).trace
          = (initTrainState 0 1 none 1 () : TrainState Unit).trace
              ++ [Event.forward true, Event.backward (trainLossOf testEnvNoQ 3 1 2),
                  Event.optStep, Event.zeroGrad]
      ∧ (train_model testEnvNoQ 0 9 3 2 none 1 4 ()).2 = 0 :=
  ⟨⟨rfl, rfl, by decide⟩,
   (c3_backprop_loss (M := Unit)).1 testEnv _ 3 1 2 rfl,
   ((c3_backprop_loss (M := Unit)).2.1 testEnvNoQ 3 1 2 rfl).1,
   (c3_backprop_loss (M := Unit)).2.2.1 testEnvNoQ 3 4 1 2 4 _ (by decide),
   (c3_backprop_loss (M := Unit)).2.2.2 testEnvNoQ 0 9 3 2 none 1 4 () rfl⟩

/-- C4: the accumulator behind the reported gradient norm is the sum of
the squared norms of the parameter gradients, absent gradients
contributing zero; it equals the squared norm of the concatenation of
all the gradients, so the reported value — its square root — is the
Euclidean norm of that concatenation. -/
theorem c4_grad_norm_is_concat_norm (ps : List (Option (List ℚ))) :
    gradNormSq ps = sqNorm (concatGrads ps)
      ∧ Real.sqrt ((gradNormSq ps : ℚ) : ℝ)
        = Real.sqrt ((sqNorm (concatGrads ps) : ℚ) : ℝ) := by
  have h : gradNormSq ps = sqNorm (concatGrads ps) := by
    induction ps with
    | nil => simp [gradNormSq, concatGrads, sqNorm]
    | cons p rest ih =>
        cases p with
        | none => simpa [gradNormSq, concatGrads] using ih
        | some g => rw [gradNormSq, concatGrads, sqNorm_append, ih]
  exact ⟨h, by rw [h]⟩

/-- C5: when `world_size > 1`, the batch size handed to the training
loader is the floor of the configured batch size divided by the world
size (16 across 2 workers giving 8), and the training run indeed builds
its loader with that reduced size. -/
theorem c5_distributed_batch_size (ws bs : Nat) (h : 1 < ws) :
    effectiveBatchSize ws bs = bs / ws
      ∧ effectiveBatchSize 2 16 = 8
      ∧ (∀ {M : Type} (env : Env M) (epoch n : Nat) (diffq : ℚ) (rep : Nat)
          (seed : Option Nat) (m0 : M),
          trainRunState env epoch n diffq rep seed ws bs m0
            = trainRepeats env diffq (bs / ws) (loaderSizes n (bs / ws)) ws rep
                (initTrainState epoch rep seed ws m0)) := by
  have hbs : effectiveBatchSize ws bs = bs / ws := by
    simp [effectiveBatchSize, h]
  refine ⟨hbs, by decide, ?_⟩
  intro M env epoch n diffq rep seed m0
  simp only [trainRunState, hbs]

theorem c5_distributed_batch_size_witness :
    1 < 2 ∧ effectiveBatchSize 2 16 = 8 :=
  ⟨by decide, (c5_distributed_batch_size 2 16 (by decide)).2.1⟩

/-- C6: when `world_size > 1`, the epoch value assigned to the
distributed sampler before iteration — the first recorded collaborator
effect of the run — is `epoch * repeat + seed * 1000` when a seed is
given and `epoch * repeat` otherwise. -/
theorem c6_sampler_epoch {M : Type} (env : Env M) (epoch n : Nat)
    (diffq : ℚ) (rep sd ws bs : Nat) (m0 : M) (h : 1 < ws) :
    (trainRunState env epoch n diffq rep (some sd) ws bs m0).trace.head?
        = some (Event.setSamplerEpoch (epoch * rep + sd * 1000))
      ∧ (trainRunState env epoch n diffq rep none ws bs m0).trace.head?
        = some (Event.setSamplerEpoch (epoch * rep)) := by
  constructor
  · obtain ⟨t, ht⟩ := trainRepeats_trace env diffq (effectiveBatchSize ws bs)
      (loaderSizes n (effectiveBatchSize ws bs)) ws rep
      (initTrainState epoch rep (some sd) ws m0)
    simp only [trainRunState]
    rw [ht]
    simp [initTrainState, h, samplerEpoch]
  · obtain ⟨t, ht⟩ := trainRepeats_trace env diffq (effectiveBatchSize ws bs)
      (loaderSizes n (effectiveBatchSize ws bs)) ws rep
      (initTrainState epoch rep none ws m0)
    simp only [trainRunState]
    rw [ht]
    simp [initTrainState, h, samplerEpoch]

theorem c6_sampler_epoch_witness :
    1 < 2
      ∧ (trainRunState testEnv 1 5 1 2 (some 3) 2 4 ()).trace.head?
          = some (Event.setSamplerEpoch (1 * 2 + 3 * 1000))
      ∧ (trainRunState testEnv 1 5 1 2 none 2 4 ()).trace.head?
          = some (Event.setSamplerEpoch (1 * 2)) :=
  ⟨by decide, c6_sampler_epoch testEnv 1 5 1 2 3 2 4 () (by decide)⟩

/-- C7: during validation every batch the loader yields — the trailing
undersized one included — enters both the loss sum and the denominator:
over a non-empty dataset the returned value is the sum of all per-batch
losses divided by the total number of yielded batches. -/
theorem c7_validation_counts_all {M : Type} (env : Env M) (n b : Nat)
    (m0 : M) (hn : 0 < n) :
    validate_model env n b m0
        = some (validLossSum env 0 (numBatches n b) / ((numBatches n b : Nat) : ℚ))
      ∧ (loaderSizes n b).length = numBatches n b := by
  refine ⟨?_, loaderSizes_length n b⟩
  have hne : loaderSizes n b ≠ [] := by
    apply List.ne_nil_of_length_pos
    rw [loaderSizes_length]
    exact numBatches_pos n b hn
  have h := (validLoop_spec env (loaderSizes n b) 0 (initValidState m0)).2.2.2.2 hne
  simp only [validate_model, validRunState]
  rw [h, loaderSizes_length]
  simp [initValidState]

theorem c7_validation_counts_all_witness :
    0 < 5
      ∧ validate_model testEnv 5 2 ()
          = some (validLossSum testEnv 0 (numBatches 5 2) / ((numBatches 5 2 : Nat) : ℚ))
      ∧ (loaderSizes 5 2).length = numBatches 5 2 :=
  ⟨by decide, c7_validation_counts_all testEnv 5 2 () (by decide)⟩

/-- C8: a validation run never steps or zeroes the optimizer and never
backpropagates, leaves the model parameters exactly as given, and every
forward pass it performs runs with gradient tracking disabled. -/
theorem c8_validator_frame {M : Type} (env : Env M) (n b : Nat) (m0 : M) :
    (validRunState env n b m0).model = m0
      ∧ Event.optStep ∉ (validRunState env n b m0).trace
      ∧ Event.zeroGrad ∉ (validRunState env n b m0).trace
      ∧ (∀ v : ℚ, Event.backward v ∉ (validRunState env n b m0).trace)
      ∧ (∀ e ∈ (validRunState env n b m0).trace, e = Event.forward false) := by
  obtain ⟨_, hM, hTr, _, _⟩ :=
    validLoop_spec env (loaderSizes n b) 0 (initValidState m0)
  have hmem : ∀ e ∈ (validRunState env n b m0).trace, e = Event.forward false := by
    intro e he
    simp only [validRunState] at he
    rw [hTr] at he
    simp only [initValidState, List.nil_append] at he
    exact List.eq_of_mem_replicate he
  refine ⟨hM, ?_, ?_, ?_, hmem⟩
  · intro hc
    cases hmem _ hc
  · intro hc
    cases hmem _ hc
  · intro v hc
    cases hmem _ hc

/-- C9: when the validation loader yields no batch (as over an empty
dataset), `current_loss` is never bound and `validate_model` produces
no loss value — rendered as `none` in the embedding, the Python `NameError` — rather
than returning 0. -/
theorem c9_empty_validation_unbound {M : Type} (env : Env M) (n b : Nat)
    (m0 : M) (h : loaderSizes n b = []) :
    validate_model env n b m0 = none ∧ loaderSizes 0 b = [] := by
  refine ⟨?_, loaderSizes_zero b⟩
  simp only [validate_model, validRunState]
  rw [h]
  rfl

theorem c9_empty_validation_unbound_witness :
    loaderSizes 0 16 = [] ∧ validate_model testEnv 0 16 () = none :=
  ⟨by decide, (c9_empty_validation_unbound testEnv 0 16 () (by decide)).1⟩

/-- C10: with a single worker, when the dataset is empty or too small
for even one full batch (so every yielded batch is skipped),
`train_model` returns `(0, 0)` — the initial values of the loss and
model-size accumulators — for every repeat count. -/
theorem c10_all_skipped_returns_zero {M : Type} (env : Env M)
    (epoch n : Nat) (diffq : ℚ) (rep : Nat) (seed : Option Nat) (b : Nat)
    (m0 : M) (h : n < b) :
    train_model env epoch n diffq rep seed 1 b m0 = (0, 0) := by
  have hskip : ∀ x ∈ loaderSizes n b, x < b := by
    rw [loaderSizes_of_lt n b h]
    by_cases hn : n = 0 <;> simp [hn]
    omega
  obtain ⟨hc, hm⟩ := trainRepeats_skipped env diffq b (loaderSizes n b) hskip rep
    (initTrainState epoch rep seed 1 m0)
  simp only [train_model, trainRunState, effectiveBatchSize_one,
    if_neg (lt_irrefl 1)]
  rw [hc, hm]
  rfl

theorem c10_all_skipped_returns_zero_witness :
    3 < 4 ∧ train_model testEnv 0 3 1 2 none 1 4 () = (0, 0) :=
  ⟨by decide, c10_all_skipped_returns_zero testEnv 0 3 1 2 none 4 () (by decide)⟩

end DemucsTrain
